import Mathlib

/-!
# Task-Scheduler: the task registry and its workers

A shallow embedding of `app/src/main.go`.

* The registry is the Go map `tasks : map[uuid.UUID]*Task`.  The map stores
  pointers, so the state has a heap of task records (a pointer is an index into
  the heap) and a map from identifiers to pointers.
* Each record has one worker goroutine (`processTask`).  A worker is a small
  sequential program; its program counter is kept next to its record.  Every
  region of `processTask` that runs with `tasksMutex` held is one atomic step.
* The values obtained from the environment (`uuid.New()`, `time.Now()`,
  `rand`) are arguments of the steps.
* Which goroutine runs next is not determined: an execution is a list of
  `Action`s.
-/

namespace TaskScheduler

/-! ## Data model -/

/-- Identifier of a task (`uuid.UUID`); identifiers are only compared for equality. -/
abbrev UUID := Nat

/-- Wall-clock instant in nanoseconds (`time.Time` after `UTC()`, which drops the
monotonic reading). -/
abbrev Time := Int

/-- Go `time.Duration`: a signed 64-bit number of nanoseconds. -/
abbrev Duration := Int

/-- Smallest `time.Duration`. -/
def minDuration : Duration := -(2 ^ 63)

/-- Largest `time.Duration`. -/
def maxDuration : Duration := 2 ^ 63 - 1

/-- Go `t.Sub(u)`: the difference `t - u`, replaced by the smallest or largest
duration when it does not fit in 64 bits. -/
def Sub (t u : Time) : Duration :=
  if t - u < minDuration then minDuration
  else if maxDuration < t - u then maxDuration
  else t - u

/-- Go `time.Since(t)` for an instant without monotonic reading: `time.Now().Sub(t)`. -/
def Since (now t : Time) : Duration := Sub now t

/-- The struct `Task` (main.go, lines 26-35). -/
structure Task where
  ID : UUID
  Status : String
  CreationTime : Time
  StartTime : Option Time
  CompletionTime : Option Time
  ProcessingDuration : Duration
  Result : String
  Error : String
deriving DecidableEq, Repr

/-- Program counter of one `processTask` goroutine. -/
inductive WorkerPC where
  /-- Started by `go processTask(newTask)`, the critical section of lines 45-48 not yet run. -/
  | spawned
  /-- Blocked in the `select` of line 57; the argument is `shouldFail`. -/
  | waiting (shouldFail : Bool)
  /-- In the ticker branch after `RUnlock` (line 85), having read `Status == "deleted"`. -/
  | sawDeleted
  /-- In the ticker branch after `RUnlock` (line 93), having read another status. -/
  | refreshing (shouldFail : Bool)
  /-- After `return` (line 80 or line 91). -/
  | returned
  /-- Stopped by a nil dereference of `task.StartTime` (lines 65 and 96). -/
  | panicked
deriving DecidableEq, Repr

/-- A task record on the heap together with the goroutine working on it. -/
structure Cell where
  task : Task
  pc : WorkerPC
deriving DecidableEq, Repr

/-- The package-level state: the records allocated so far and the map `tasks`. -/
structure State where
  heap : List Cell
  tasks : List (UUID × Nat)
deriving DecidableEq, Repr

/-- State after `init()` (lines 22-24): an empty map. -/
def init : State := { heap := [], tasks := [] }

/-- Error text written by `deleteHandler` (line 162) and by the ticker branch (line 89). -/
def deletedMsg : String := "Task explicitly deleted by user request."

/-- Error text of a simulated failure (line 69). -/
def failedMsg : String := "Simulated internal processing error during execution."

/-- Result text of a successful task (line 73). -/
def completedMsg : String := "Task completed successfully!"

/-- Apply `f` to the record behind pointer `p` (a write through `*Task`). -/
def State.mutate (s : State) (p : Nat) (f : Cell → Cell) : State :=
  match s.heap[p]? with
  | some c => { s with heap := s.heap.set p (f c) }
  | none => s

/-- The record behind pointer `p`, all fields read in the same state. -/
def State.record (s : State) (p : Nat) : Option Task :=
  (s.heap[p]?).map Cell.task

/-! ## The worker `processTask` -/

/-- Lines 40-48: `startTime` and `shouldFail` were drawn in lines 40-43, then under the
lock `StartTime` and `Status` are written. -/
def processTask_start (startTime : Time) (shouldFail : Bool) (c : Cell) : Cell :=
  match c.pc with
  | .spawned =>
    { task := { c.task with StartTime := some startTime, Status := "in_progress" },
      pc := .waiting shouldFail }
  | _ => c

/-- Lines 58-80: the branch `case <-timer.C` of the `select`; `now` is the value of
`time.Now().UTC()` of line 63. -/
def processTask_timer (now : Time) (c : Cell) : Cell :=
  match c.pc with
  | .waiting shouldFail =>
    if c.task.Status ≠ "deleted" then
      match c.task.StartTime with
      | some st =>
        let t1 : Task :=
          { c.task with
            CompletionTime := some now,
            ProcessingDuration := (Sub now st).tdiv 1000000000 }
        if shouldFail then
          { task := { t1 with Status := "failed", Error := failedMsg }, pc := .returned }
        else
          { task := { t1 with Status := "completed", Result := completedMsg }, pc := .returned }
      | none => { task := { c.task with CompletionTime := some now }, pc := .panicked }
    else
      { c with pc := .returned }
  | _ => c

/-- Lines 82-93: the branch `case <-ticker.C`, the read of `task.Status` under `RLock`. -/
def processTask_tickCheck (c : Cell) : Cell :=
  match c.pc with
  | .waiting shouldFail =>
    if c.task.Status = "deleted" then { c with pc := .sawDeleted }
    else { c with pc := .refreshing shouldFail }
  | _ => c

/-- Lines 87-91 and 95-97: the write that follows the read of the ticker branch, under
`Lock`; `now` is the clock read by `time.Since` in line 96. -/
def processTask_tickWrite (now : Time) (c : Cell) : Cell :=
  match c.pc with
  | .sawDeleted =>
    { task := { c.task with Status := "deleted_by_user", Error := deletedMsg },
      pc := .returned }
  | .refreshing shouldFail =>
    match c.task.StartTime with
    | some st =>
      { task := { c.task with ProcessingDuration := (Since now st).tdiv 1000000000 },
        pc := .waiting shouldFail }
    | none => { c with pc := .panicked }
  | _ => c

/-! ## The handlers -/

/-- Lines 102-113 of `postHandler`: `id` is the value of `uuid.New()`, `now` the value of
`time.Now().UTC()`.  Returns the pointer `newTask` and the new state. -/
def postHandler (s : State) (id : UUID) (now : Time) : Nat × State :=
  let newTask : Task :=
    { ID := id, CreationTime := now, Status := "pending",
      StartTime := none, CompletionTime := none, ProcessingDuration := 0,
      Result := "", Error := "" }
  (s.heap.length,
   { heap := s.heap ++ [{ task := newTask, pc := .spawned }],
     tasks := (id, s.heap.length) :: s.tasks })

/-- Lines 128-130 of `getHandler` (and line 154 of `deleteHandler`): `tasks[requestedID]`. -/
def lookupTask (s : State) (id : UUID) : Option Nat :=
  s.tasks.lookup id

/-- `getHandler` when no other goroutine runs between the lookup and the encoding of the
record: `none` is the answer 404, `some t` the answer 200 with body `t`. -/
def getHandler (s : State) (id : UUID) : Option Task :=
  match lookupTask s id with
  | some p => s.record p
  | none => none

/-- Answer of `deleteHandler` to a well-formed identifier. -/
inductive Response where
  /-- Status 200. -/
  | ok
  /-- Status 404. -/
  | notFound
deriving DecidableEq, Repr

/-- The write of lines 161-162. -/
def markDeleted (c : Cell) : Cell :=
  { c with task := { c.task with Status := "deleted", Error := deletedMsg } }

/-- Lines 151-165 of `deleteHandler`, one critical section. -/
def deleteHandler (s : State) (id : UUID) : Response × State :=
  match lookupTask s id with
  | none => (.notFound, s)
  | some p => (.ok, s.mutate p markDeleted)

/-! ## Executions -/

/-- One atomic step of some goroutine. -/
inductive Action where
  /-- A `POST /` request. -/
  | create (id : UUID) (now : Time)
  /-- A `DELETE /:id` request with a well-formed identifier. -/
  | delete (id : UUID)
  /-- Worker of record `p`: lines 40-48. -/
  | start (p : Nat) (startTime : Time) (shouldFail : Bool)
  /-- Worker of record `p`: the read of the ticker branch. -/
  | tickCheck (p : Nat)
  /-- Worker of record `p`: the write of the ticker branch. -/
  | tickWrite (p : Nat) (now : Time)
  /-- Worker of record `p`: the timer branch. -/
  | timer (p : Nat) (now : Time)
deriving DecidableEq, Repr

/-- Effect of one action on the state. -/
def step (s : State) : Action → State
  | .create id now => (postHandler s id now).2
  | .delete id => (deleteHandler s id).2
  | .start p startTime shouldFail => s.mutate p (processTask_start startTime shouldFail)
  | .tickCheck p => s.mutate p processTask_tickCheck
  | .tickWrite p now => s.mutate p (processTask_tickWrite now)
  | .timer p now => s.mutate p (processTask_timer now)

/-- Run the actions of an execution one after the other. -/
def run (s : State) (acts : List Action) : State :=
  acts.foldl step s

/-- The handler `getHandler` in general.  The pointer is read from the map under `RLock`
(lines 128-130); the fields of the record are read later, by the encoder called in line
138, one after the other in the order of their declaration and without the lock.
`gap k` lists the actions that other goroutines run just before field number `k` is read. -/
def getHandlerRacing (s : State) (id : UUID) (gap : Nat → List Action) : Option Task :=
  match lookupTask s id with
  | none => none
  | some p =>
    let s0 := run s (gap 0)
    let s1 := run s0 (gap 1)
    let s2 := run s1 (gap 2)
    let s3 := run s2 (gap 3)
    let s4 := run s3 (gap 4)
    let s5 := run s4 (gap 5)
    let s6 := run s5 (gap 6)
    let s7 := run s6 (gap 7)
    match s0.record p, s1.record p, s2.record p, s3.record p,
          s4.record p, s5.record p, s6.record p, s7.record p with
    | some t0, some t1, some t2, some t3, some t4, some t5, some t6, some t7 =>
      some { ID := t0.ID, Status := t1.Status, CreationTime := t2.CreationTime,
             StartTime := t3.StartTime, CompletionTime := t4.CompletionTime,
             ProcessingDuration := t5.ProcessingDuration, Result := t6.Result,
             Error := t7.Error }
    | _, _, _, _, _, _, _, _ => none

/-! ## Example executions -/

/-- An execution in which one task is created, started and completed. -/
def completedRun : List Action :=
  [.create 7 0, .start 0 1 false, .timer 0 1500000001]

/-- The registry after `completedRun`. -/
def completedState : State := run init completedRun

/-- An execution in which one task is created and started. -/
def startedRun : List Action := [.create 7 0, .start 0 1 false]

/-- The timer branch of the worker runs after `Status` was read and before `CreationTime`
is read. -/
def timerDuringEncoding : Nat → List Action :=
  fun k => if k = 2 then [.timer 0 1500000001] else []

/-- An execution with two tasks: the second is deleted before its worker has started, the
first is never deleted and fails. -/
def otherDeletedRun : List Action :=
  [.create 7 0, .create 8 0, .delete 8, .start 0 1 true, .timer 0 5]

/-- An execution in which a task is created and deleted before its worker has run its
first critical section, which runs next. -/
def deleteBeforeStart : List Action := [.create 7 0, .delete 7, .start 0 1 false]

/-! ## Predicates used in the statements and proofs -/

/-- Well-formed registry: every pointer stored in the map is allocated, and no two
identifiers share a pointer. -/
def WF (s : State) : Prop :=
  ∀ id p, lookupTask s id = some p →
    p < s.heap.length ∧ ∀ id2, lookupTask s id2 = some p → id2 = id

/-- What the program counter of a worker says about its record. -/
def CellInv (c : Cell) : Prop :=
  match c.pc with
  | .spawned =>
    c.task.StartTime = none ∧ c.task.CompletionTime = none ∧ c.task.Result = ""
  | .waiting _ =>
    c.task.StartTime ≠ none ∧ c.task.CompletionTime = none ∧ c.task.Result = "" ∧
      (c.task.Status = "in_progress" ∨ c.task.Status = "deleted")
  | .refreshing _ =>
    c.task.StartTime ≠ none ∧ c.task.CompletionTime = none ∧ c.task.Result = "" ∧
      (c.task.Status = "in_progress" ∨ c.task.Status = "deleted")
  | .sawDeleted =>
    c.task.StartTime ≠ none ∧ c.task.CompletionTime = none ∧ c.task.Result = "" ∧
      c.task.Status = "deleted"
  | .returned =>
    c.task.StartTime ≠ none ∧
      (c.task.Result ≠ "" → c.task.Status = "completed" ∨ c.task.Status = "deleted")
  | .panicked => False

/-- The steps a worker takes on its own record. -/
inductive WorkerOp : (Cell → Cell) → Prop where
  | start (startTime : Time) (shouldFail : Bool) :
      WorkerOp (processTask_start startTime shouldFail)
  | timer (now : Time) : WorkerOp (processTask_timer now)
  | tickCheck : WorkerOp processTask_tickCheck
  | tickWrite (now : Time) : WorkerOp (processTask_tickWrite now)

/-- The fields of `b` that may not differ from those of `a`: identifier and creation
time, and the start and completion time once they are set. -/
def Keeps (a b : Task) : Prop :=
  b.ID = a.ID ∧ b.CreationTime = a.CreationTime ∧
  (∀ x, a.StartTime = some x → b.StartTime = some x) ∧
  (∀ y, a.CompletionTime = some y → b.CompletionTime = some y)

/-- Every allocated record agrees with the program counter of its worker. -/
def HeapInv (s : State) : Prop :=
  ∀ (q : Nat) (c : Cell), s.heap[q]? = some c → CellInv c

/-- The action is a `DELETE` request that reaches the record behind pointer `p` while the
worker of that record has not yet run its first critical section (lines 45-48). -/
def earlyDelete (s : State) (p : Nat) : Action → Bool
  | .delete id =>
    decide (lookupTask s id = some p) &&
      (match s.heap[p]? with
       | some c => decide (c.pc = .spawned)
       | none => false)
  | _ => false

/-- No action of the execution `acts`, run from `s`, is an early delete of the record `p`. -/
def noEarlyDelete (s : State) (p : Nat) : List Action → Bool
  | [] => true
  | a :: acts => !(earlyDelete s p a) && noEarlyDelete (step s a) p acts

/-- The action is a `DELETE` request that reaches the record behind pointer `p`. -/
def deletes (s : State) (p : Nat) : Action → Bool
  | .delete id => decide (lookupTask s id = some p)
  | _ => false

/-- No action of the execution `acts`, run from `s`, is a delete of the record `p`. -/
def neverDeleted (s : State) (p : Nat) : List Action → Bool
  | [] => true
  | a :: acts => !(deletes s p a) && neverDeleted (step s a) p acts

/-- Status and error of a record that no early delete has reached. -/
def ErrInv (c : Cell) : Prop :=
  match c.pc with
  | .spawned => c.task.Status = "pending" ∧ c.task.Error = ""
  | .waiting _ =>
    (c.task.Status = "in_progress" ∧ c.task.Error = "") ∨ c.task.Status = "deleted"
  | .refreshing _ =>
    (c.task.Status = "in_progress" ∧ c.task.Error = "") ∨ c.task.Status = "deleted"
  | .sawDeleted => c.task.Status = "deleted"
  | .returned =>
    c.task.Error ≠ "" →
      c.task.Status = "failed" ∨ c.task.Status = "deleted" ∨ c.task.Status = "deleted_by_user"
  | .panicked => True

/-- Status and error of a record that no `DELETE` request has reached. -/
def FreshInv (c : Cell) : Prop :=
  match c.pc with
  | .spawned => c.task.Status = "pending" ∧ c.task.Error = ""
  | .waiting _ => c.task.Status = "in_progress" ∧ c.task.Error = ""
  | .refreshing _ => c.task.Status = "in_progress" ∧ c.task.Error = ""
  | .sawDeleted => False
  | .returned => True
  | .panicked => True

/-! ## Basic facts about the heap and the map -/

theorem heap_mutate (s : State) (p q : Nat) (f : Cell → Cell) :
    (s.mutate p f).heap[q]? = if q = p then (s.heap[p]?).map f else s.heap[q]? := by
  unfold State.mutate
  cases hp : s.heap[p]? with
  | none => by_cases hq : q = p <;> simp [hq, hp]
  | some c =>
    have hlt : p < s.heap.length := by
      rcases List.getElem?_eq_some.mp hp with ⟨h, _⟩
      exact h
    by_cases hq : q = p
    · subst hq
      simp [List.getElem?_set, hlt, hp]
    · have : p ≠ q := fun h => hq h.symm
      simp [List.getElem?_set, this, hq]

theorem tasks_mutate (s : State) (p : Nat) (f : Cell → Cell) :
    (s.mutate p f).tasks = s.tasks := by
  unfold State.mutate
  cases s.heap[p]? <;> rfl

theorem length_mutate (s : State) (p : Nat) (f : Cell → Cell) :
    (s.mutate p f).heap.length = s.heap.length := by
  unfold State.mutate
  cases s.heap[p]? <;> simp

theorem lookupTask_mutate (s : State) (p : Nat) (f : Cell → Cell) (id : UUID) :
    lookupTask (s.mutate p f) id = lookupTask s id := by
  simp [lookupTask, tasks_mutate]

theorem record_mutate (s : State) (p q : Nat) (f : Cell → Cell) :
    (s.mutate p f).record q
      = if q = p then (s.heap[p]?).map (fun c => (f c).task) else s.record q := by
  unfold State.record
  rw [heap_mutate]
  by_cases hq : q = p
  · simp [hq, Function.comp_def]
  · simp [hq]

theorem lookupTask_post (s : State) (id id2 : UUID) (now : Time) :
    lookupTask (postHandler s id now).2 id2
      = if id2 = id then some s.heap.length else lookupTask s id2 := by
  by_cases h : id2 = id
  · simp [lookupTask, postHandler, List.lookup, h]
  · have : (id2 == id) = false := by simpa using h
    simp [lookupTask, postHandler, List.lookup, h, this]

theorem heap_post (s : State) (id : UUID) (now : Time) (q : Nat) (h : q < s.heap.length) :
    (postHandler s id now).2.heap[q]? = s.heap[q]? := by
  simp [postHandler, List.getElem?_append_left h]

/-! ## Well-formed registries -/

theorem wf_init : WF init := by
  intro id p h
  simp [lookupTask, init] at h

theorem wf_mutate (s : State) (p : Nat) (f : Cell → Cell) (h : WF s) : WF (s.mutate p f) := by
  intro id q hq
  rw [lookupTask_mutate] at hq
  rw [length_mutate]
  refine ⟨(h id q hq).1, ?_⟩
  intro id2 h2
  rw [lookupTask_mutate] at h2
  exact (h id q hq).2 id2 h2

theorem wf_post (s : State) (id : UUID) (now : Time) (h : WF s) :
    WF (postHandler s id now).2 := by
  intro a p ha
  rw [lookupTask_post] at ha
  have hlen : (postHandler s id now).2.heap.length = s.heap.length + 1 := by
    simp [postHandler]
  rw [hlen]
  by_cases haid : a = id
  · simp [haid] at ha
    subst ha
    refine ⟨Nat.lt_succ_self _, ?_⟩
    intro b hb
    rw [lookupTask_post] at hb
    by_cases hbid : b = id
    · rw [hbid, haid]
    · simp [hbid] at hb
      exact absurd (h b _ hb).1 (Nat.lt_irrefl _)
  · simp [haid] at ha
    refine ⟨Nat.lt_succ_of_lt (h a p ha).1, ?_⟩
    intro b hb
    rw [lookupTask_post] at hb
    by_cases hbid : b = id
    · simp [hbid] at hb
      subst hb
      exact absurd (h a _ ha).1 (Nat.lt_irrefl _)
    · simp [hbid] at hb
      exact (h a p ha).2 b hb

theorem deleteHandler_state (s : State) (id : UUID) :
    (deleteHandler s id).2
      = match lookupTask s id with
        | none => s
        | some p => s.mutate p markDeleted := by
  unfold deleteHandler
  cases lookupTask s id <;> rfl

theorem wf_step (s : State) (a : Action) (h : WF s) : WF (step s a) := by
  cases a with
  | create id now => exact wf_post s id now h
  | delete id =>
    show WF (deleteHandler s id).2
    rw [deleteHandler_state]
    cases lookupTask s id with
    | none => exact h
    | some p => exact wf_mutate s p _ h
  | start p st sf => exact wf_mutate s p _ h
  | tickCheck p => exact wf_mutate s p _ h
  | tickWrite p now => exact wf_mutate s p _ h
  | timer p now => exact wf_mutate s p _ h

theorem run_nil (s : State) : run s [] = s := rfl

theorem run_cons (s : State) (a : Action) (acts : List Action) :
    run s (a :: acts) = run (step s a) acts := rfl

theorem run_append (s : State) (xs ys : List Action) :
    run s (xs ++ ys) = run (run s xs) ys := by
  simp [run, List.foldl_append]

theorem wf_run (s : State) (acts : List Action) (h : WF s) : WF (run s acts) := by
  induction acts generalizing s with
  | nil => exact h
  | cons a acts ih => exact ih (step s a) (wf_step s a h)

/-! ## The handlers -/

theorem getHandler_eq_some (s : State) (id : UUID) (t : Task) :
    getHandler s id = some t ↔ ∃ p, lookupTask s id = some p ∧ s.record p = some t := by
  unfold getHandler
  cases lookupTask s id <;> simp

theorem record_eq_some (s : State) (p : Nat) (t : Task) :
    s.record p = some t ↔ ∃ c, s.heap[p]? = some c ∧ c.task = t := by
  unfold State.record
  cases s.heap[p]? <;> simp

theorem getHandler_delete_self (s : State) (id : UUID) (t : Task)
    (hget : getHandler s id = some t) :
    (deleteHandler s id).1 = Response.ok ∧
    getHandler (deleteHandler s id).2 id
      = some { t with Status := "deleted", Error := deletedMsg } := by
  obtain ⟨p, hp, hr⟩ := (getHandler_eq_some s id t).mp hget
  obtain ⟨c, hc, hct⟩ := (record_eq_some s p t).mp hr
  have hd : deleteHandler s id = (Response.ok, s.mutate p markDeleted) := by
    simp [deleteHandler, hp]
  rw [hd]
  refine ⟨rfl, ?_⟩
  show getHandler (s.mutate p markDeleted) id = _
  unfold getHandler
  rw [lookupTask_mutate, hp]
  simp [record_mutate, hc, markDeleted, hct]

/-- C1 (amended): for every registry and every id whose record has a terminal status
(completed, failed or deleted_by_user), deleteHandler answers 200 and overwrites the
status with "deleted" and the error with the deletion message; the id, creation time,
start time, completion time, processing duration and result of the record are unchanged. -/
theorem deleteHandler_terminal (s : State) (id : UUID) (t : Task)
    (hget : getHandler s id = some t)
    (_hterm : t.Status = "completed" ∨ t.Status = "failed" ∨ t.Status = "deleted_by_user") :
    (deleteHandler s id).1 = Response.ok ∧
    getHandler (deleteHandler s id).2 id
      = some { ID := t.ID, Status := "deleted", CreationTime := t.CreationTime,
               StartTime := t.StartTime, CompletionTime := t.CompletionTime,
               ProcessingDuration := t.ProcessingDuration, Result := t.Result,
               Error := "Task explicitly deleted by user request." } :=
  getHandler_delete_self s id t hget

theorem deleteHandler_terminal_witness :
    (getHandler completedState 7).map Task.Status = some "completed" ∧
    (deleteHandler completedState 7).1 = Response.ok ∧
    getHandler (deleteHandler completedState 7).2 7
      = some { ID := 7, Status := "deleted", CreationTime := 0,
               StartTime := some 1, CompletionTime := some 1500000001,
               ProcessingDuration := 1, Result := "Task completed successfully!",
               Error := "Task explicitly deleted by user request." } :=
  ⟨by decide,
   deleteHandler_terminal completedState 7
     { ID := 7, Status := "completed", CreationTime := 0,
       StartTime := some 1, CompletionTime := some 1500000001,
       ProcessingDuration := 1, Result := "Task completed successfully!",
       Error := "" } (by decide) (Or.inl rfl)⟩

/-- C1 (counterexample): after a task has completed, deleteHandler answers 200 and the
record, whose status was "completed", has status "deleted": the record is changed. -/
theorem deleteHandler_terminal_counterexample :
    (getHandler completedState 7).map Task.Status = some "completed" ∧
    (deleteHandler completedState 7).1 = Response.ok ∧
    (getHandler (deleteHandler completedState 7).2 7).map Task.Status = some "deleted" ∧
    getHandler (deleteHandler completedState 7).2 7 ≠ getHandler completedState 7 := by
  decide

/-- C2: for every reachable registry and every id whose record is not terminal (status
pending, in_progress or deleted), deleteHandler answers 200, the record then has status
"deleted" and the deletion message as error with all other fields unchanged, and the
records of all other identifiers (and all other heap records) are unchanged; for an id
absent from the map it answers 404 and the state is unchanged. -/
theorem deleteHandler_spec (acts : List Action) (id : UUID) :
    (∀ t, getHandler (run init acts) id = some t →
      (t.Status = "pending" ∨ t.Status = "in_progress" ∨ t.Status = "deleted") →
      (deleteHandler (run init acts) id).1 = Response.ok ∧
      getHandler (deleteHandler (run init acts) id).2 id
        = some { ID := t.ID, Status := "deleted", CreationTime := t.CreationTime,
                 StartTime := t.StartTime, CompletionTime := t.CompletionTime,
                 ProcessingDuration := t.ProcessingDuration, Result := t.Result,
                 Error := "Task explicitly deleted by user request." } ∧
      (∀ id2, id2 ≠ id →
        getHandler (deleteHandler (run init acts) id).2 id2 = getHandler (run init acts) id2) ∧
      (∀ q, lookupTask (run init acts) id ≠ some q →
        (deleteHandler (run init acts) id).2.heap[q]? = (run init acts).heap[q]?)) ∧
    (lookupTask (run init acts) id = none →
      deleteHandler (run init acts) id = (Response.notFound, run init acts)) := by
  have hwf : WF (run init acts) := wf_run init acts wf_init
  generalize run init acts = s at hwf ⊢
  refine ⟨?_, ?_⟩
  · intro t hget _
    obtain ⟨h1, h2⟩ := getHandler_delete_self s id t hget
    refine ⟨h1, h2, ?_, ?_⟩
    · intro id2 hne
      obtain ⟨p, hp, _⟩ := (getHandler_eq_some s id t).mp hget
      have hd : (deleteHandler s id).2 = s.mutate p markDeleted := by
        simp [deleteHandler, hp]
      rw [hd]
      unfold getHandler
      rw [lookupTask_mutate]
      cases h2 : lookupTask s id2 with
      | none => rfl
      | some q =>
        have hqp : q ≠ p := by
          intro hqp
          subst hqp
          exact hne ((hwf id q hp).2 id2 h2)
        simp [record_mutate, hqp]
    · intro q hq
      obtain ⟨p, hp, _⟩ := (getHandler_eq_some s id t).mp hget
      have hd : (deleteHandler s id).2 = s.mutate p markDeleted := by
        simp [deleteHandler, hp]
      have hqp : q ≠ p := by
        intro hqp
        subst hqp
        exact hq hp
      rw [hd, heap_mutate]
      simp [hqp]
  · intro hnone
    simp [deleteHandler, hnone]

theorem deleteHandler_spec_witness :
    (deleteHandler (run init [.create 7 0, .start 0 1 false]) 7).1 = Response.ok ∧
    getHandler (deleteHandler (run init [.create 7 0, .start 0 1 false]) 7).2 7
      = some { ID := 7, Status := "deleted", CreationTime := 0,
               StartTime := some 1, CompletionTime := none,
               ProcessingDuration := 0, Result := "",
               Error := "Task explicitly deleted by user request." } ∧
    deleteHandler (run init [.create 7 0, .start 0 1 false]) 8
      = (Response.notFound, run init [.create 7 0, .start 0 1 false]) :=
  have h := deleteHandler_spec [.create 7 0, .start 0 1 false]
  have h7 := (h 7).1
    { ID := 7, Status := "in_progress", CreationTime := 0,
      StartTime := some 1, CompletionTime := none,
      ProcessingDuration := 0, Result := "", Error := "" } (by decide) (Or.inr (Or.inl rfl))
  ⟨h7.1, h7.2.1, (h 8).2 (by decide)⟩

/-- C3: for every registry, fresh identifier id and time now, postHandler yields a
registry in which getHandler finds under id a record with that id, status "pending",
creation time now, no start and completion time, processing duration zero, empty result
and error; every record present before is still present and unchanged. -/
theorem postHandler_spec (s : State) (id : UUID) (now : Time)
    (hfresh : lookupTask s id = none) :
    getHandler (postHandler s id now).2 id
      = some { ID := id, Status := "pending", CreationTime := now,
               StartTime := none, CompletionTime := none,
               ProcessingDuration := 0, Result := "", Error := "" } ∧
    ∀ id2 t, getHandler s id2 = some t → getHandler (postHandler s id now).2 id2 = some t := by
  refine ⟨?_, ?_⟩
  · unfold getHandler
    rw [lookupTask_post]
    simp [State.record, postHandler]
  · intro id2 t hget
    obtain ⟨p, hp, hr⟩ := (getHandler_eq_some s id2 t).mp hget
    obtain ⟨c, hc, hct⟩ := (record_eq_some s p t).mp hr
    have hne : id2 ≠ id := by
      intro h
      rw [h, hfresh] at hp
      exact Option.noConfusion hp
    have hlt : p < s.heap.length := (List.getElem?_eq_some.mp hc).1
    unfold getHandler
    rw [lookupTask_post]
    simp [hne, hp, State.record, heap_post s id now p hlt, hc, hct]

theorem postHandler_spec_witness :
    lookupTask completedState 9 = none ∧
    getHandler (postHandler completedState 9 5).2 9
      = some { ID := 9, Status := "pending", CreationTime := 5,
               StartTime := none, CompletionTime := none,
               ProcessingDuration := 0, Result := "", Error := "" } :=
  ⟨by decide, (postHandler_spec completedState 9 5 (by decide)).1⟩

/-! ## Records and program counters -/

theorem step_cases (s : State) (a : Action) :
    (∃ id now, a = .create id now ∧ step s a = (postHandler s id now).2) ∨
    step s a = s ∨
    (∃ p f, WorkerOp f ∧ step s a = s.mutate p f) ∨
    (∃ id p, a = .delete id ∧ lookupTask s id = some p ∧ step s a = s.mutate p markDeleted) := by
  cases a with
  | create id now => exact Or.inl ⟨id, now, rfl, rfl⟩
  | delete id =>
    cases h : lookupTask s id with
    | none =>
      refine Or.inr (Or.inl ?_)
      simp [step, deleteHandler, h]
    | some p =>
      refine Or.inr (Or.inr (Or.inr ⟨id, p, rfl, h, ?_⟩))
      simp [step, deleteHandler, h]
  | start p st sf => exact Or.inr (Or.inr (Or.inl ⟨p, _, WorkerOp.start st sf, rfl⟩))
  | tickCheck p => exact Or.inr (Or.inr (Or.inl ⟨p, _, WorkerOp.tickCheck, rfl⟩))
  | tickWrite p now => exact Or.inr (Or.inr (Or.inl ⟨p, _, WorkerOp.tickWrite now, rfl⟩))
  | timer p now => exact Or.inr (Or.inr (Or.inl ⟨p, _, WorkerOp.timer now, rfl⟩))

theorem mutate_inv (P : Nat → Cell → Prop) (s : State) (p : Nat) (f : Cell → Cell)
    (hs : ∀ q c, s.heap[q]? = some c → P q c)
    (hf : ∀ c, s.heap[p]? = some c → P p c → P p (f c)) :
    ∀ q c, (s.mutate p f).heap[q]? = some c → P q c := by
  intro q c hq
  rw [heap_mutate] at hq
  by_cases hqp : q = p
  · subst hqp
    simp only [if_true] at hq
    cases hc : s.heap[q]? with
    | none => simp [hc] at hq
    | some c0 =>
      simp [hc] at hq
      subst hq
      exact hf c0 hc (hs q c0 hc)
  · simp only [hqp, if_false] at hq
    exact hs q c hq

theorem post_heap (s : State) (id : UUID) (now : Time) (q : Nat) (c : Cell)
    (hq : (postHandler s id now).2.heap[q]? = some c) :
    s.heap[q]? = some c ∨
    (q = s.heap.length ∧
      c = { task := { ID := id, Status := "pending", CreationTime := now,
                      StartTime := none, CompletionTime := none,
                      ProcessingDuration := 0, Result := "", Error := "" },
            pc := .spawned }) := by
  by_cases hlt : q < s.heap.length
  · left
    rw [heap_post s id now q hlt] at hq
    exact hq
  · right
    have hge : s.heap.length ≤ q := Nat.le_of_not_lt hlt
    simp only [postHandler] at hq
    rw [List.getElem?_append_right hge] at hq
    cases hd : q - s.heap.length with
    | zero =>
      simp [hd] at hq
      exact ⟨by omega, hq.symm⟩
    | succ n => simp [hd] at hq

theorem cellInv_worker (f : Cell → Cell) (hf : WorkerOp f) (c : Cell) (h : CellInv c) :
    CellInv (f c) := by
  obtain ⟨t, pc⟩ := c
  cases hf with
  | start st sf =>
    cases pc <;> simp_all [CellInv, processTask_start]
  | timer now =>
    cases pc <;> simp_all [CellInv, processTask_timer]
    rename_i sf
    by_cases hd : t.Status = "deleted"
    · simp_all
    · cases hst : t.StartTime with
      | none => simp_all
      | some st => cases sf <;> simp_all [completedMsg]
  | tickCheck =>
    cases pc <;> simp_all [CellInv, processTask_tickCheck]
    by_cases hd : t.Status = "deleted" <;> simp_all
  | tickWrite now =>
    cases pc <;> simp_all [CellInv, processTask_tickWrite]
    cases hst : t.StartTime <;> simp_all

theorem cellInv_markDeleted (c : Cell) (h : CellInv c) : CellInv (markDeleted c) := by
  obtain ⟨t, pc⟩ := c
  cases pc <;> simp_all [CellInv, markDeleted]

theorem keeps_refl (a : Task) : Keeps a a :=
  ⟨rfl, rfl, fun _ h => h, fun _ h => h⟩

theorem keeps_trans (a b c : Task) (h1 : Keeps a b) (h2 : Keeps b c) : Keeps a c :=
  ⟨h2.1.trans h1.1, h2.2.1.trans h1.2.1,
   fun x hx => h2.2.2.1 x (h1.2.2.1 x hx), fun y hy => h2.2.2.2 y (h1.2.2.2 y hy)⟩

theorem keeps_worker (f : Cell → Cell) (hf : WorkerOp f) (c : Cell) (h : CellInv c) :
    Keeps c.task (f c).task := by
  obtain ⟨t, pc⟩ := c
  cases hf with
  | start st sf =>
    cases pc <;> simp_all [CellInv, processTask_start, Keeps]
  | timer now =>
    cases pc <;> simp_all [CellInv, processTask_timer, Keeps]
    rename_i sf
    by_cases hd : t.Status = "deleted"
    · simp_all
    · cases hst : t.StartTime with
      | none => simp_all
      | some st => cases sf <;> simp_all
  | tickCheck =>
    cases pc <;> simp_all [CellInv, processTask_tickCheck, Keeps]
    by_cases hd : t.Status = "deleted" <;> simp_all
  | tickWrite now =>
    cases pc <;> simp_all [CellInv, processTask_tickWrite, Keeps]
    cases hst : t.StartTime <;> simp_all

theorem keeps_markDeleted (c : Cell) : Keeps c.task (markDeleted c).task := by
  simp [Keeps, markDeleted]

theorem heapInv_init : HeapInv init := by
  intro q c h
  simp [init] at h

theorem heapInv_step (s : State) (a : Action) (h : HeapInv s) : HeapInv (step s a) := by
  rcases step_cases s a with ⟨id, now, _, hs⟩ | hs | ⟨p, f, hf, hs⟩ | ⟨id, p, _, _, hs⟩
  · rw [hs]
    intro q c hq
    rcases post_heap s id now q c hq with hq | ⟨_, hc⟩
    · exact h q c hq
    · subst hc
      simp [CellInv]
  · rw [hs]
    exact h
  · rw [hs]
    exact mutate_inv (fun _ c => CellInv c) s p f h (fun c _ hc => cellInv_worker f hf c hc)
  · rw [hs]
    exact mutate_inv (fun _ c => CellInv c) s p _ h (fun c _ hc => cellInv_markDeleted c hc)

theorem heapInv_run (s : State) (acts : List Action) (h : HeapInv s) :
    HeapInv (run s acts) := by
  induction acts generalizing s with
  | nil => exact h
  | cons a acts ih => exact ih (step s a) (heapInv_step s a h)

theorem heapInv_reachable (acts : List Action) : HeapInv (run init acts) :=
  heapInv_run init acts heapInv_init

theorem keeps_step (s : State) (a : Action) (h : HeapInv s) (p : Nat) (c : Cell)
    (hc : s.heap[p]? = some c) :
    ∃ c2, (step s a).heap[p]? = some c2 ∧ Keeps c.task c2.task := by
  have hlt : p < s.heap.length := (List.getElem?_eq_some.mp hc).1
  rcases step_cases s a with ⟨id, now, _, hs⟩ | hs | ⟨q, f, hf, hs⟩ | ⟨id, q, _, _, hs⟩
  · rw [hs, heap_post s id now p hlt]
    exact ⟨c, hc, keeps_refl _⟩
  · rw [hs]
    exact ⟨c, hc, keeps_refl _⟩
  · rw [hs, heap_mutate]
    by_cases hpq : p = q
    · subst hpq
      simp only [if_true, hc, Option.map_some']
      exact ⟨f c, rfl, keeps_worker f hf c (h p c hc)⟩
    · simp only [hpq, if_false]
      exact ⟨c, hc, keeps_refl _⟩
  · rw [hs, heap_mutate]
    by_cases hpq : p = q
    · subst hpq
      simp only [if_true, hc, Option.map_some']
      exact ⟨markDeleted c, rfl, keeps_markDeleted c⟩
    · simp only [hpq, if_false]
      exact ⟨c, hc, keeps_refl _⟩

theorem keeps_run (s : State) (acts : List Action) (h : HeapInv s) (p : Nat) (c : Cell)
    (hc : s.heap[p]? = some c) :
    ∃ c2, (run s acts).heap[p]? = some c2 ∧ Keeps c.task c2.task := by
  induction acts generalizing s c with
  | nil => exact ⟨c, hc, keeps_refl _⟩
  | cons a acts ih =>
    obtain ⟨c1, hc1, hk1⟩ := keeps_step s a h p c hc
    obtain ⟨c2, hc2, hk2⟩ := ih (step s a) (heapInv_step s a h) c1 hc1
    exact ⟨c2, hc2, keeps_trans _ _ _ hk1 hk2⟩

/-- C8: in every execution from the empty registry, for every record: whatever actions
follow, the record stays allocated, its id and creation time are unchanged, its start
time is unchanged once it is set and its completion time is unchanged once it is set. -/
theorem fields_written_once (acts more : List Action) (p : Nat) (t : Task)
    (ht : (run init acts).record p = some t) :
    ∃ t2, (run init (acts ++ more)).record p = some t2 ∧
      t2.ID = t.ID ∧ t2.CreationTime = t.CreationTime ∧
      (∀ x, t.StartTime = some x → t2.StartTime = some x) ∧
      (∀ y, t.CompletionTime = some y → t2.CompletionTime = some y) := by
  obtain ⟨c, hc, hct⟩ := (record_eq_some _ p t).mp ht
  obtain ⟨c2, hc2, hk⟩ := keeps_run (run init acts) more (heapInv_reachable acts) p c hc
  refine ⟨c2.task, ?_, ?_⟩
  · rw [run_append]
    exact (record_eq_some _ p c2.task).mpr ⟨c2, hc2, rfl⟩
  · rw [← hct]
    exact hk

theorem fields_written_once_witness :
    ∃ t2, (run init (startedRun
                      ++ [.delete 7, .start 0 5 true, .tickCheck 0, .timer 0 9])).record 0
            = some t2 ∧
      t2.ID = 7 ∧ t2.CreationTime = 0 ∧ t2.StartTime = some 1 := by
  obtain ⟨t2, h1, h2, h3, h4, _⟩ :=
    fields_written_once startedRun
      [.delete 7, .start 0 5 true, .tickCheck 0, .timer 0 9] 0
      { ID := 7, Status := "in_progress", CreationTime := 0, StartTime := some 1,
        CompletionTime := none, ProcessingDuration := 0, Result := "", Error := "" }
      (by decide)
  exact ⟨t2, h1, h2, h3, h4 1 rfl⟩

/-! ## Result and error -/

theorem errInv_worker (f : Cell → Cell) (hf : WorkerOp f) (c : Cell) (h : ErrInv c) :
    ErrInv (f c) := by
  obtain ⟨t, pc⟩ := c
  cases hf with
  | start st sf =>
    cases pc <;> simp_all [ErrInv, processTask_start]
  | timer now =>
    cases pc <;> simp_all [ErrInv, processTask_timer]
    rename_i sf
    by_cases hd : t.Status = "deleted"
    · simp_all
    · cases hst : t.StartTime with
      | none => simp_all
      | some st => cases sf <;> simp_all
  | tickCheck =>
    cases pc <;> simp_all [ErrInv, processTask_tickCheck]
    by_cases hd : t.Status = "deleted" <;> simp_all
  | tickWrite now =>
    cases pc <;> simp_all [ErrInv, processTask_tickWrite]
    cases hst : t.StartTime <;> simp_all

theorem errInv_markDeleted (c : Cell) (h : c.pc ≠ .spawned) : ErrInv (markDeleted c) := by
  obtain ⟨t, pc⟩ := c
  cases pc <;> simp_all [ErrInv, markDeleted]

theorem errInv_step (s : State) (a : Action) (p0 : Nat)
    (h : ∀ (c : Cell), s.heap[p0]? = some c → ErrInv c)
    (ha : earlyDelete s p0 a = false) :
    ∀ (c : Cell), (step s a).heap[p0]? = some c → ErrInv c := by
  have h0 : ∀ (q : Nat) (c : Cell), s.heap[q]? = some c → q = p0 → ErrInv c := by
    intro q c hq hqp
    subst hqp
    exact h c hq
  intro c hc
  rcases step_cases s a with ⟨id, now, _, hs⟩ | hs | ⟨p, f, hf, hs⟩ | ⟨id, p, hid, hp, hs⟩
  · rw [hs] at hc
    rcases post_heap s id now p0 c hc with hq | ⟨_, hc⟩
    · exact h c hq
    · subst hc
      simp [ErrInv]
  · rw [hs] at hc
    exact h c hc
  · rw [hs] at hc
    exact mutate_inv (fun q c => q = p0 → ErrInv c) s p f h0
      (fun c _ hc hpp => errInv_worker f hf c (hc hpp)) p0 c hc rfl
  · rw [hs] at hc
    refine mutate_inv (fun q c => q = p0 → ErrInv c) s p _ h0
      (fun c0 hc0 _ hpp => errInv_markDeleted c0 ?_) p0 c hc rfl
    subst hid
    subst hpp
    simpa [earlyDelete, hp, hc0] using ha

theorem errInv_run (s : State) (acts : List Action) (p0 : Nat)
    (h : ∀ (c : Cell), s.heap[p0]? = some c → ErrInv c)
    (ha : noEarlyDelete s p0 acts = true) :
    ∀ (c : Cell), (run s acts).heap[p0]? = some c → ErrInv c := by
  induction acts generalizing s with
  | nil => exact h
  | cons a acts ih =>
    simp only [noEarlyDelete, Bool.and_eq_true, Bool.not_eq_true'] at ha
    exact ih (step s a) (errInv_step s a p0 h ha.1) ha.2

/-- C5 (amended): in every state reachable from the empty registry, every record has a
non-empty result only if its status is completed or deleted; and every record that no
delete request reached before the first critical section of its own worker has a non-empty
error only if its status is failed, deleted or deleted_by_user. -/
theorem result_error_invariant (acts : List Action) (p : Nat) (t : Task)
    (ht : (run init acts).record p = some t) :
    (t.Result ≠ "" → t.Status = "completed" ∨ t.Status = "deleted") ∧
    (noEarlyDelete init p acts = true → t.Error ≠ "" →
      t.Status = "failed" ∨ t.Status = "deleted" ∨ t.Status = "deleted_by_user") := by
  obtain ⟨c, hc, hct⟩ := (record_eq_some _ p t).mp ht
  have hinv : CellInv c := heapInv_reachable acts p c hc
  subst hct
  obtain ⟨t, pc⟩ := c
  refine ⟨?_, ?_⟩
  · cases pc <;> simp_all [CellInv]
  · intro hne
    have herr : ErrInv ⟨t, pc⟩ :=
      errInv_run init acts p (fun c h => by simp [init] at h) hne _ hc
    cases pc <;> simp_all [CellInv, ErrInv]
    all_goals
      intro he
      rcases herr with h | h
      · exact absurd h.2 he
      · exact Or.inr (Or.inl h)

theorem result_error_invariant_witness :
    (run init otherDeletedRun).record 0
      = some { ID := 7, Status := "failed", CreationTime := 0,
               StartTime := some 1, CompletionTime := some 5,
               ProcessingDuration := 0, Result := "",
               Error := "Simulated internal processing error during execution." } ∧
    noEarlyDelete init 0 otherDeletedRun = true ∧
    ("failed" = "failed" ∨ "failed" = "deleted" ∨ "failed" = "deleted_by_user") :=
  have h := result_error_invariant otherDeletedRun 0
    { ID := 7, Status := "failed", CreationTime := 0,
      StartTime := some 1, CompletionTime := some 5,
      ProcessingDuration := 0, Result := "",
      Error := "Simulated internal processing error during execution." } (by decide)
  ⟨by decide, by decide, h.2 (by decide) (by decide)⟩

/-- C5 (counterexample): create a task, let it complete, then delete it: the record has
the non-empty result of the completed task while its status is "deleted". -/
theorem result_error_invariant_counterexample :
    (getHandler (run init (completedRun ++ [.delete 7])) 7).map
        (fun t => (t.Result, t.Status))
      = some ("Task completed successfully!", "deleted") ∧
    "Task completed successfully!" ≠ "" ∧ "deleted" ≠ "completed" := by
  decide

theorem freshInv_worker (f : Cell → Cell) (hf : WorkerOp f) (c : Cell) (h : FreshInv c) :
    FreshInv (f c) := by
  obtain ⟨t, pc⟩ := c
  cases hf with
  | start st sf =>
    cases pc <;> simp_all [FreshInv, processTask_start]
  | timer now =>
    cases pc <;> simp_all [FreshInv, processTask_timer]
    rename_i sf
    cases hst : t.StartTime with
    | none => simp_all
    | some st => cases sf <;> simp_all
  | tickCheck =>
    cases pc <;> simp_all [FreshInv, processTask_tickCheck]
  | tickWrite now =>
    cases pc <;> simp_all [FreshInv, processTask_tickWrite]
    cases hst : t.StartTime <;> simp_all

theorem freshInv_step (s : State) (a : Action) (p0 : Nat)
    (h : ∀ (c : Cell), s.heap[p0]? = some c → FreshInv c)
    (ha : deletes s p0 a = false) :
    ∀ (c : Cell), (step s a).heap[p0]? = some c → FreshInv c := by
  have h0 : ∀ (q : Nat) (c : Cell), s.heap[q]? = some c → q = p0 → FreshInv c := by
    intro q c hq hqp
    subst hqp
    exact h c hq
  intro c hc
  rcases step_cases s a with ⟨id, now, _, hs⟩ | hs | ⟨p, f, hf, hs⟩ | ⟨id, p, hid, hp, hs⟩
  · rw [hs] at hc
    rcases post_heap s id now p0 c hc with hq | ⟨_, hc⟩
    · exact h c hq
    · subst hc
      simp [FreshInv]
  · rw [hs] at hc
    exact h c hc
  · rw [hs] at hc
    exact mutate_inv (fun q c => q = p0 → FreshInv c) s p f h0
      (fun c _ hc hpp => freshInv_worker f hf c (hc hpp)) p0 c hc rfl
  · rw [hs] at hc
    refine mutate_inv (fun q c => q = p0 → FreshInv c) s p _ h0 (fun c _ _ hpp => ?_) p0 c hc rfl
    subst hid
    subst hpp
    simp [deletes, hp] at ha

theorem freshInv_run (s : State) (acts : List Action) (p0 : Nat)
    (h : ∀ (c : Cell), s.heap[p0]? = some c → FreshInv c)
    (ha : neverDeleted s p0 acts = true) :
    ∀ (c : Cell), (run s acts).heap[p0]? = some c → FreshInv c := by
  induction acts generalizing s with
  | nil => exact h
  | cons a acts ih =>
    simp only [neverDeleted, Bool.and_eq_true, Bool.not_eq_true'] at ha
    exact ih (step s a) (freshInv_step s a p0 h ha.1) ha.2

/-- C6: for every record that no delete request has reached, when the timer branch of its
worker runs the status becomes failed if shouldFail is true and completed otherwise, the
completion time is set to the current time, and afterwards the result is non-empty iff
the status is completed (then it is "Task completed successfully!") and the error is
non-empty iff the status is failed (then it is the simulated-failure message). -/
theorem timer_finalizes (acts : List Action) (p : Nat) (c : Cell) (sf : Bool) (now : Time)
    (hnd : neverDeleted init p acts = true)
    (hc : (run init acts).heap[p]? = some c) (hpc : c.pc = .waiting sf) :
    ∃ t, (step (run init acts) (.timer p now)).record p = some t ∧
      t.Status = (if sf = true then "failed" else "completed") ∧
      t.CompletionTime = some now ∧
      (t.Result ≠ "" ↔ t.Status = "completed") ∧
      (t.Error ≠ "" ↔ t.Status = "failed") ∧
      (t.Status = "completed" → t.Result = "Task completed successfully!") ∧
      (t.Status = "failed" →
        t.Error = "Simulated internal processing error during execution.") := by
  have hinv : CellInv c := heapInv_reachable acts p c hc
  have hfresh : FreshInv c :=
    freshInv_run init acts p (fun c h => by simp [init] at h) hnd c hc
  obtain ⟨t, pc⟩ := c
  simp only at hpc
  subst hpc
  simp only [CellInv, FreshInv] at hinv hfresh
  obtain ⟨hst, -, hres, -⟩ := hinv
  obtain ⟨hstatus, herr⟩ := hfresh
  obtain ⟨st, hst⟩ := Option.ne_none_iff_exists'.mp hst
  refine ⟨(processTask_timer now ⟨t, .waiting sf⟩).task, ?_, ?_⟩
  · show ((run init acts).mutate p (processTask_timer now)).record p = _
    rw [record_mutate]
    simp [hc]
  · cases sf <;>
      simp [processTask_timer, hstatus, hst, hres, herr, completedMsg, failedMsg]

theorem timer_finalizes_witness :
    ∃ t, (step (run init [.create 7 0, .start 0 1 true, .tickCheck 0, .tickWrite 0 3])
            (.timer 0 9)).record 0 = some t ∧
      t.Status = (if true = true then "failed" else "completed") ∧
      t.CompletionTime = some 9 ∧
      (t.Result ≠ "" ↔ t.Status = "completed") ∧
      (t.Error ≠ "" ↔ t.Status = "failed") ∧
      (t.Status = "completed" → t.Result = "Task completed successfully!") ∧
      (t.Status = "failed" →
        t.Error = "Simulated internal processing error during execution.") :=
  timer_finalizes [.create 7 0, .start 0 1 true, .tickCheck 0, .tickWrite 0 3] 0
    { task := { ID := 7, Status := "in_progress", CreationTime := 0, StartTime := some 1,
                CompletionTime := none, ProcessingDuration := 0, Result := "", Error := "" },
      pc := .waiting true } true 9 (by decide) (by decide) rfl

/-! ## The deletion marker -/

theorem heap_step_worker (s : State) (p : Nat) (f : Cell → Cell) (c : Cell)
    (hc : s.heap[p]? = some c) : (s.mutate p f).heap[p]? = some (f c) := by
  rw [heap_mutate]
  simp [hc]

theorem step_cell (s : State) (a : Action) (p : Nat) (c : Cell) (hc : s.heap[p]? = some c) :
    (step s a).heap[p]? = some c ∨
    (∃ f, WorkerOp f ∧ (step s a).heap[p]? = some (f c)) ∨
    (step s a).heap[p]? = some (markDeleted c) := by
  have hlt : p < s.heap.length := (List.getElem?_eq_some.mp hc).1
  rcases step_cases s a with ⟨id, now, _, hs⟩ | hs | ⟨q, f, hf, hs⟩ | ⟨id, q, _, _, hs⟩
  · left
    rw [hs, heap_post s id now p hlt, hc]
  · left
    rw [hs, hc]
  · by_cases hpq : p = q
    · subst hpq
      right; left
      exact ⟨f, hf, by rw [hs, heap_step_worker s p f c hc]⟩
    · left
      rw [hs, heap_mutate]
      simp [hpq, hc]
  · by_cases hpq : p = q
    · subst hpq
      right; right
      rw [hs, heap_step_worker s p markDeleted c hc]
    · left
      rw [hs, heap_mutate]
      simp [hpq, hc]

theorem worker_status_deleted_by_user (f : Cell → Cell) (hf : WorkerOp f) (c : Cell)
    (hinv : CellInv c) (hs2 : (f c).task.Status = "deleted_by_user") :
    c.task.Status = "deleted" ∨ (f c).task = c.task := by
  obtain ⟨t, pc⟩ := c
  cases hf with
  | start st sf =>
    cases pc <;> simp_all [CellInv, processTask_start]
  | timer now =>
    cases pc <;> simp_all [CellInv, processTask_timer]
    rename_i sf
    by_cases hd : t.Status = "deleted"
    · simp_all
    · cases hst : t.StartTime with
      | none => simp_all
      | some st => cases sf <;> simp_all
  | tickCheck =>
    cases pc <;> simp_all [CellInv, processTask_tickCheck]
    by_cases hd : t.Status = "deleted" <;> simp_all
  | tickWrite now =>
    cases pc <;> simp_all [CellInv, processTask_tickWrite]
    cases hst : t.StartTime <;> simp_all

theorem deletes_between (ids : List UUID) (s : State) (p : Nat) (t : Task)
    (hc : s.heap[p]? = some { task := t, pc := .sawDeleted }) (hd : t.Status = "deleted") :
    ∃ t2, (run s (ids.map Action.delete)).heap[p]? = some { task := t2, pc := .sawDeleted } ∧
      t2.Status = "deleted" ∧
      { t2 with Status := "deleted_by_user", Error := deletedMsg }
        = { t with Status := "deleted_by_user", Error := deletedMsg } := by
  induction ids generalizing s t with
  | nil => exact ⟨t, hc, hd, rfl⟩
  | cons id ids ih =>
    simp only [List.map_cons, run_cons]
    have hstep : (step s (.delete id)).heap[p]? = some { task := t, pc := .sawDeleted } ∨
        (step s (.delete id)).heap[p]?
          = some (markDeleted { task := t, pc := .sawDeleted }) := by
      show (deleteHandler s id).2.heap[p]? = _ ∨ (deleteHandler s id).2.heap[p]? = _
      rw [deleteHandler_state]
      cases lookupTask s id with
      | none => exact Or.inl hc
      | some q =>
        by_cases hpq : p = q
        · subst hpq
          exact Or.inr (heap_step_worker s p markDeleted _ hc)
        · left
          show (s.mutate q markDeleted).heap[p]? = _
          rw [heap_mutate]
          simp [hpq, hc]
    rcases hstep with h | h
    · exact ih (step s (.delete id)) t h hd
    · obtain ⟨t2, h1, h2, h3⟩ := ih (step s (.delete id)) _ h rfl
      exact ⟨t2, h1, h2, by rw [h3]⟩

/-- C10: for every record of a reachable state whose status is "deleted" while its worker
waits in the select, the ticker branch (read, then write) sets status deleted_by_user and
the deletion message as error and ends the worker, whereas the timer branch leaves every
field unchanged (the completion time stays unset) and ends the worker; a worker between
the read and the write of the ticker branch always finds status "deleted" at the write,
whatever ran in between; and no action changes a status into deleted_by_user unless the
status was "deleted" just before it. -/
theorem deletion_marker_handling (acts : List Action) (p : Nat) (c : Cell) (now : Time)
    (hc : (run init acts).heap[p]? = some c) :
    (c.task.Status = "deleted" → ∀ sf, c.pc = .waiting sf →
      (∀ ids : List UUID,
        (run (run init acts)
            ([.tickCheck p] ++ ids.map Action.delete ++ [.tickWrite p now])).heap[p]?
          = some { task := { c.task with Status := "deleted_by_user",
                                         Error := "Task explicitly deleted by user request." },
                   pc := .returned }) ∧
      (step (run init acts) (.timer p now)).heap[p]?
        = some { task := c.task, pc := .returned } ∧
      c.task.CompletionTime = none) ∧
    (c.pc = .sawDeleted →
      c.task.Status = "deleted" ∧
      (step (run init acts) (.tickWrite p now)).heap[p]?
        = some { task := { c.task with Status := "deleted_by_user",
                                       Error := "Task explicitly deleted by user request." },
                 pc := .returned }) ∧
    (∀ a c2, (step (run init acts) a).heap[p]? = some c2 →
      c2.task.Status = "deleted_by_user" →
      c.task.Status = "deleted" ∨ c2.task = c.task) := by
  have hinv : CellInv c := heapInv_reachable acts p c hc
  generalize run init acts = s at hc
  refine ⟨?_, ?_, ?_⟩
  · intro hdel sf hpc
    obtain ⟨t, pc⟩ := c
    simp only at hpc hdel
    subst hpc
    refine ⟨?_, ?_, ?_⟩
    · intro ids
      have h1 : (step s (.tickCheck p)).heap[p]? = some { task := t, pc := .sawDeleted } := by
        show (s.mutate p processTask_tickCheck).heap[p]? = _
        rw [heap_step_worker s p processTask_tickCheck _ hc]
        simp [processTask_tickCheck, hdel]
      obtain ⟨t2, h2, -, h3⟩ := deletes_between ids (step s (.tickCheck p)) p t h1 hdel
      rw [run_append, run_append]
      show ((run (step s (.tickCheck p)) (ids.map Action.delete)).mutate p
              (processTask_tickWrite now)).heap[p]? = _
      rw [heap_step_worker _ p _ _ h2]
      simp only [processTask_tickWrite]
      rw [h3]
      rfl
    · show (s.mutate p (processTask_timer now)).heap[p]? = _
      rw [heap_step_worker s p _ _ hc]
      simp [processTask_timer, hdel]
    · simp only [CellInv] at hinv
      exact hinv.2.1
  · intro hpc
    obtain ⟨t, pc⟩ := c
    simp only at hpc
    subst hpc
    simp only [CellInv] at hinv
    refine ⟨hinv.2.2.2, ?_⟩
    show (s.mutate p (processTask_tickWrite now)).heap[p]? = _
    rw [heap_step_worker s p _ _ hc]
    simp [processTask_tickWrite, deletedMsg]
  · intro a c2 hc2 hs2
    rcases step_cell s a p c hc with h | ⟨f, hf, h⟩ | h
    · rw [h] at hc2
      cases hc2
      exact Or.inr rfl
    · rw [h] at hc2
      cases hc2
      exact worker_status_deleted_by_user f hf c hinv hs2
    · rw [h] at hc2
      cases hc2
      simp [markDeleted] at hs2

theorem deletion_marker_handling_witness :
    (run (run init [.create 7 0, .start 0 1 false, .delete 7])
        ([.tickCheck 0] ++ [7, 8].map Action.delete ++ [.tickWrite 0 5])).heap[0]?
      = some { task := { ID := 7, Status := "deleted_by_user", CreationTime := 0,
                         StartTime := some 1, CompletionTime := none,
                         ProcessingDuration := 0, Result := "",
                         Error := "Task explicitly deleted by user request." },
               pc := .returned } ∧
    (step (run init [.create 7 0, .start 0 1 false, .delete 7]) (.timer 0 5)).heap[0]?
      = some { task := { ID := 7, Status := "deleted", CreationTime := 0,
                         StartTime := some 1, CompletionTime := none,
                         ProcessingDuration := 0, Result := "",
                         Error := "Task explicitly deleted by user request." },
               pc := .returned } :=
  have h := (deletion_marker_handling [.create 7 0, .start 0 1 false, .delete 7] 0
    { task := { ID := 7, Status := "deleted", CreationTime := 0,
                StartTime := some 1, CompletionTime := none,
                ProcessingDuration := 0, Result := "",
                Error := "Task explicitly deleted by user request." },
      pc := .waiting false } 5 (by decide)).1 rfl false rfl
  ⟨h.1 [7, 8], h.2.1⟩

theorem getHandlerRacing_quiet (s : State) (id : UUID) :
    getHandlerRacing s id (fun _ => []) = getHandler s id := by
  unfold getHandlerRacing getHandler
  cases lookupTask s id with
  | none => rfl
  | some p =>
    simp only [run_nil]
    cases s.record p <;> rfl

/-- C9 (failing input): a GET of a started task during which the timer branch of the
worker runs between two field reads returns status "in_progress" together with a
completion time and the result of the completed task; this record is neither the record
before the timer branch nor the record after it. -/
theorem getHandler_torn_read :
    getHandlerRacing (run init startedRun) 7 timerDuringEncoding
      = some { ID := 7, Status := "in_progress", CreationTime := 0,
               StartTime := some 1, CompletionTime := some 1500000001,
               ProcessingDuration := 1, Result := "Task completed successfully!",
               Error := "" } ∧
    getHandlerRacing (run init startedRun) 7 timerDuringEncoding
      ≠ getHandler (run init startedRun) 7 ∧
    getHandlerRacing (run init startedRun) 7 timerDuringEncoding
      ≠ getHandler (step (run init startedRun) (.timer 0 1500000001)) 7 := by
  decide

/-- C4 (failing input): create a task, delete it before its worker has run lines 45-48,
then let the worker run: the status, "deleted" after the delete, becomes "in_progress"
and later "completed". -/
theorem delete_before_start_lost :
    (getHandler (run init [.create 7 0, .delete 7]) 7).map Task.Status = some "deleted" ∧
    (getHandler (run init deleteBeforeStart) 7).map Task.Status = some "in_progress" ∧
    (getHandler (run init (deleteBeforeStart ++ [.tickCheck 0, .tickWrite 0 2, .timer 0 3]))
        7).map Task.Status = some "completed" := by
  decide

theorem deleted_stable_cell (f : Cell → Cell) (hf : WorkerOp f) (c : Cell) (hinv : CellInv c)
    (hpc : c.pc ≠ .spawned)
    (hs : c.task.Status = "deleted" ∨ c.task.Status = "deleted_by_user") :
    (f c).pc ≠ .spawned ∧
    ((f c).task.Status = "deleted" ∨ (f c).task.Status = "deleted_by_user") := by
  obtain ⟨t, pc⟩ := c
  have hd : (∃ sf, pc = .waiting sf) → t.Status = "deleted" := by
    rintro ⟨sf, rfl⟩
    simp only [CellInv] at hinv
    rcases hs with h | h
    · exact h
    · rcases hinv.2.2.2 with h2 | h2
      · rw [h] at h2
        exact absurd h2 (by decide)
      · exact h2
  cases hf with
  | start st sf =>
    cases pc <;> simp_all [CellInv, processTask_start]
  | timer now =>
    cases pc <;> simp_all [CellInv, processTask_timer]
  | tickCheck =>
    cases pc <;> simp_all [CellInv, processTask_tickCheck]
  | tickWrite now =>
    cases pc <;> simp_all [CellInv, processTask_tickWrite]
    cases hst : t.StartTime <;> simp_all

/-- Once the worker of a record has run its first critical section and a delete request
has reached the record, the status stays "deleted" or "deleted_by_user" whatever follows. -/
theorem deleted_after_start_stable (acts more : List Action) (p : Nat) (c : Cell)
    (hc : (run init acts).heap[p]? = some c) (hpc : c.pc ≠ .spawned)
    (hs : c.task.Status = "deleted" ∨ c.task.Status = "deleted_by_user") :
    ∃ c2, (run init (acts ++ more)).heap[p]? = some c2 ∧
      (c2.task.Status = "deleted" ∨ c2.task.Status = "deleted_by_user") := by
  rw [run_append]
  have hinv : HeapInv (run init acts) := heapInv_reachable acts
  generalize run init acts = s at hc hinv
  induction more generalizing s c with
  | nil => exact ⟨c, hc, hs⟩
  | cons a more ih =>
    have hinv2 := heapInv_step s a hinv
    rcases step_cell s a p c hc with h | ⟨f, hf, h⟩ | h
    · exact ih c hpc hs (step s a) h hinv2
    · obtain ⟨h1, h2⟩ := deleted_stable_cell f hf c (hinv p c hc) hpc hs
      exact ih (f c) h1 h2 (step s a) h hinv2
    · exact ih (markDeleted c) hpc (Or.inl rfl) (step s a) h hinv2

/-! ## Processing duration -/

theorem sub_later (st now : Time) (h : st ≤ now) :
    (Sub now st).tdiv 1000000000 = min (now - st) maxDuration / 1000000000 := by
  have h0 : (0 : Int) ≤ now - st := sub_nonneg.mpr h
  have hmin : ¬ (now - st < minDuration) := by
    have : minDuration < (0 : Int) := by decide
    exact not_lt.mpr (le_trans (le_of_lt this) h0)
  have hs : Sub now st = min (now - st) maxDuration := by
    unfold Sub
    rw [if_neg hmin]
    by_cases hmax : maxDuration < now - st
    · rw [if_pos hmax, min_eq_right (le_of_lt hmax)]
    · rw [if_neg hmax, min_eq_left (not_lt.mp hmax)]
  rw [hs]
  have h1 : (0 : Int) ≤ min (now - st) maxDuration := le_min h0 (by decide)
  exact Int.tdiv_eq_ediv h1 (by decide)

/-- C7 (amended): whenever the worker writes the processing duration, the stored number is
the elapsed time since the start time in whole seconds: at finalization (timer branch,
status not deleted) the completion time is now and the processing duration is
(completion time - start time) / 10^9 rounded down, and at a ticker write after a read
that did not see the deletion marker it is (now - start time) / 10^9 rounded down, for
every later time now; a difference above the largest duration counts as the largest. -/
theorem processingDuration_whole_seconds (acts : List Action) (p : Nat) (c : Cell)
    (now : Time) (hc : (run init acts).heap[p]? = some c) :
    (∀ sf, c.pc = .waiting sf → c.task.Status ≠ "deleted" →
      ∃ st t2, c.task.StartTime = some st ∧
        (step (run init acts) (.timer p now)).record p = some t2 ∧
        t2.CompletionTime = some now ∧
        (st ≤ now →
          t2.ProcessingDuration = min (now - st) maxDuration / 1000000000)) ∧
    (∀ sf, c.pc = .refreshing sf →
      ∃ st t2, c.task.StartTime = some st ∧
        (step (run init acts) (.tickWrite p now)).record p = some t2 ∧
        (st ≤ now →
          t2.ProcessingDuration = min (now - st) maxDuration / 1000000000)) := by
  have hinv : CellInv c := heapInv_reachable acts p c hc
  generalize run init acts = s at hc
  obtain ⟨t, pc⟩ := c
  refine ⟨?_, ?_⟩
  · intro sf hpc hnd
    simp only at hpc hnd
    subst hpc
    simp only [CellInv] at hinv
    obtain ⟨st, hst⟩ := Option.ne_none_iff_exists'.mp hinv.1
    refine ⟨st, (processTask_timer now ⟨t, .waiting sf⟩).task, hst, ?_, ?_, ?_⟩
    · show (s.mutate p (processTask_timer now)).record p = _
      rw [record_mutate]
      simp [hc]
    · cases sf <;> simp [processTask_timer, hnd, hst]
    · intro hle
      cases sf <;> simp [processTask_timer, hnd, hst, sub_later st now hle]
  · intro sf hpc
    simp only at hpc
    subst hpc
    simp only [CellInv] at hinv
    obtain ⟨st, hst⟩ := Option.ne_none_iff_exists'.mp hinv.1
    refine ⟨st, (processTask_tickWrite now ⟨t, .refreshing sf⟩).task, hst, ?_, ?_⟩
    · show (s.mutate p (processTask_tickWrite now)).record p = _
      rw [record_mutate]
      simp [hc]
    · intro hle
      simp [processTask_tickWrite, hst, Since, sub_later st now hle]

theorem processingDuration_whole_seconds_witness :
    ∃ t2, (step (run init startedRun) (.timer 0 1500000001)).record 0 = some t2 ∧
      t2.CompletionTime = some 1500000001 ∧
      t2.ProcessingDuration = min (1500000001 - 1) maxDuration / 1000000000 := by
  obtain ⟨st, t2, h1, h2, h3, h4⟩ :=
    (processingDuration_whole_seconds startedRun 0
      { task := { ID := 7, Status := "in_progress", CreationTime := 0, StartTime := some 1,
                  CompletionTime := none, ProcessingDuration := 0, Result := "", Error := "" },
        pc := .waiting false } 1500000001 (by decide)).1 false rfl (by decide)
  cases h1
  exact ⟨t2, h2, h3, h4 (by decide)⟩

/-- C7 (counterexample): a task started at time 1 and finalized at time 1500000001 has
completion time - start time = 1500000000 but processing duration 1; a ticker write at
that time stores 1 as well. -/
theorem processingDuration_counterexample :
    ((step (run init startedRun) (.timer 0 1500000001)).record 0).map
        (fun t => (t.StartTime, t.CompletionTime, t.ProcessingDuration))
      = some (some 1, some 1500000001, 1) ∧
    ((run init (startedRun ++ [.tickCheck 0, .tickWrite 0 1500000001])).record 0).map
        (fun t => (t.StartTime, t.ProcessingDuration))
      = some (some 1, 1) ∧
    (1 : Duration) ≠ 1500000001 - 1 := by
  decide

end TaskScheduler
